import Mathlib

/-!
# package-search-api: ordered row projection and bounded query handler

A shallow embedding of `package-search-api.go`.

* Go `string` and `[]byte` values are Lean `String`s; `len` is the UTF-8 byte
  count (`String.utf8ByteSize`).
* A Go `error` is its message (`err.Error()`); `nil` is `none` / `Except.ok`.
* `interface{}` column values are a type parameter `V` whose `default` is the
  nil interface.
* The pieces of the standard library and of the storage driver that the code
  calls (`json.Marshal`, `db.Query`) are parameters.
-/

namespace PackageSearch

/-! ## `fmt.Sprintf` for the verbs the program uses -/

/-- The part of `fmt.Sprintf` used by the program: `%%` prints a percent sign,
`%s` prints the next operand (a string or a byte slice) verbatim, any other
character is copied.  A `%s` without operand prints `%!s(MISSING)`. -/
def sprintfAux : List Char → List String → List Char
  | [], _ => []
  | '%' :: '%' :: fmt, args => '%' :: sprintfAux fmt args
  | '%' :: 's' :: fmt, [] => "%!s(MISSING)".data ++ sprintfAux fmt []
  | '%' :: 's' :: fmt, a :: args => a.data ++ sprintfAux fmt args
  | c :: fmt, args => c :: sprintfAux fmt args

/-- Model of `fmt.Sprintf(format, args...)`. -/
def sprintf (format : String) (args : List String) : String :=
  ⟨sprintfAux format.data args⟩

/-! ## Search term validation -/

/-- The character class `[a-zA-Z0-9_-]` of `pkgNameRegex`. -/
def pkgNameClass (c : Char) : Bool :=
  ('a' ≤ c && c ≤ 'z') || ('A' ≤ c && c ≤ 'Z') || ('0' ≤ c && c ≤ '9') ||
    c == '_' || c == '-'

/-- Matcher for `cls+` anchored at the end of the text: one or more characters
of the class, then the end of the input. -/
def matchPlusToEnd (cls : Char → Bool) : List Char → Bool
  | [] => false
  | [c] => cls c
  | c :: rest => cls c && matchPlusToEnd cls rest

/-- The call `pkgNameRegex.MatchString(s)` with
`pkgNameRegex = regexp.MustCompile("^[a-zA-Z0-9_-]+$")`.  Without the `m` flag
`^` is the start and `$` the very end of the text. -/
def pkgNameRegexMatchString (s : String) : Bool :=
  matchPlusToEnd pkgNameClass s.data

/-- The function `validateSearchValue`; `none` is the `nil` error. -/
def validateSearchValue (pkg_search : String) : Option String :=
  if pkg_search.utf8ByteSize > 50 then
    some "package' length can not be greater than 50."
  else if pkg_search.utf8ByteSize > 0 then
    if !pkgNameRegexMatchString pkg_search then
      some "Package name can only contain English alphabets, numbers, '-' and '_' characters."
    else none
  else none

/-- Matcher for `cls{lo,hi}` anchored at the end of the text, by counting the
repetitions still allowed. -/
def matchRepeatToEnd (cls : Char → Bool) : Nat → Nat → List Char → Bool
  | lo, _, [] => lo == 0
  | _, 0, _ :: _ => false
  | lo, hi + 1, c :: rest => cls c && matchRepeatToEnd cls (lo - 1) hi rest

/-- The pattern of the specification, `^[a-zA-Z0-9_-]{0,50}$`. -/
def specTermPattern (s : String) : Bool :=
  matchRepeatToEnd pkgNameClass 0 50 s.data

/-! ## The ordered projection encoder -/

/-- The functions of `encoding/json` that the program relies on. -/
structure JsonLib (V : Type) where
  /-- The call `json.Marshal(value)` on one column value. -/
  marshalValue : V → Except String String
  /-- The pass that `json.Marshal` runs over the bytes returned by a
  `MarshalJSON` method before it appends them: it fails on a text that is not
  valid JSON, drops insignificant whitespace and escapes `<`, `>` and `&`. -/
  compact : String → Except String String
  /-- The message of the `MarshalerError` wrapping a failure of that step. -/
  marshalerError : String → String
  /-- The JSON string literal `json.Marshal` emits for a Go string. -/
  marshalString : String → String

/-- The assignment `m[key] = value` on a Go map, kept as an association list
with at most one entry per key. -/
def mapAssign {V : Type} (m : List (String × V)) (key : String) (value : V) :
    List (String × V) :=
  (key, value) :: m.filter (fun p => p.1 != key)

/-- The index expression `m[key]`: the zero value (the nil interface) when the
key is absent. -/
def mapIndex {V : Type} [Inhabited V] (m : List (String × V)) (key : String) : V :=
  (m.lookup key).getD default

/-- The type `OrderedMap`: a map with ordered keys. -/
structure OrderedMap (V : Type) where
  keys : List String
  data : List (String × V)

/-- The constructor `newOrderedMap`: `keys` is the nil slice, `data` an empty map. -/
def newOrderedMap {V : Type} : OrderedMap V :=
  { keys := [], data := [] }

/-- The method `set`: append the key, store the value. -/
def OrderedMap.set {V : Type} (om : OrderedMap V) (key : String) (value : V) : OrderedMap V :=
  { keys := om.keys ++ [key], data := mapAssign om.data key value }

/-- The loop `for i, key := range om.keys` of `MarshalJSON`, from index `i`
with buffer `buf`. -/
def OrderedMap.marshalLoop {V : Type} [Inhabited V] (lib : JsonLib V)
    (data : List (String × V)) : Nat → List String → String → Except String String
  | _, [], buf => .ok buf
  | i, key :: rest, buf =>
    let buf1 := if i ≠ 0 then buf ++ "," else buf
    let value := mapIndex data key
    match lib.marshalValue value with
    | .error err => .error err
    | .ok jsonValue =>
      OrderedMap.marshalLoop lib data (i + 1) rest (buf1 ++ sprintf "\"%s\":%s" [key, jsonValue])

/-- The method `MarshalJSON`. -/
def OrderedMap.MarshalJSON {V : Type} [Inhabited V] (lib : JsonLib V) (om : OrderedMap V) :
    Except String String :=
  match OrderedMap.marshalLoop lib om.data 0 om.keys "\x7b" with
  | .error err => .error err
  | .ok buf => .ok (buf ++ "\x7d")

/-- An Ordered Row populated by a sequence of `set` calls on a fresh map. -/
def buildRow {V : Type} (calls : List (String × V)) : OrderedMap V :=
  calls.foldl (fun om c => om.set c.1 c.2) newOrderedMap

/-- The value of the last call in `calls` that used `key`. -/
def lastValue {V : Type} [Inhabited V] (calls : List (String × V)) (key : String) : V :=
  (calls.reverse.lookup key).getD default

/-- The member text `"key":json` with the key copied verbatim. -/
def memberText (key json : String) : String :=
  "\"" ++ key ++ "\":" ++ json

/-- The object text `{m1,m2,...}`. -/
def objectText (members : List String) : String :=
  "\x7b" ++ ",".intercalate members ++ "\x7d"

/-- The array text `[e1,e2,...]`. -/
def arrayText (elems : List String) : String :=
  "[" ++ ",".intercalate elems ++ "]"

/-! ## Storage and `queryIndexes` -/

/-- The value `*sql.Rows` of a successful `db.Query`: the outcome of
`rows.Columns()` and, for every `rows.Next()` that returns true, the outcome of
`rows.Scan` (the scanned column values or an error). -/
structure Rows (V : Type) where
  columns : Except String (List String)
  fetched : List (Except String (List V))

/-- The storage handle, by what `db.Query(query)` returns. -/
abbrev Database (V : Type) := String → Except String (Rows V)

/-- The inner loop `for i, columnName := range columnNames` on a fresh map;
`values` has one slot per column, nil where nothing was scanned. -/
def rowOf {V : Type} [Inhabited V] (columnNames : List String) (values : List V) :
    OrderedMap V :=
  columnNames.enum.foldl (fun om ic => om.set ic.2 (values.getD ic.1 default)) newOrderedMap

/-- The loop `for rows.Next()`, appending to `results`. -/
def scanLoop {V : Type} [Inhabited V] (columnNames : List String) :
    List (Except String (List V)) → List (OrderedMap V) → Except String (List (OrderedMap V))
  | [], results => .ok results
  | .error err :: _, _ => .error err
  | .ok values :: rest, results => scanLoop columnNames rest (results ++ [rowOf columnNames values])

/-- Lines 61-96 of `queryIndexes`: the Result Set `results`.  The empty list is
the nil slice (`append` is the only write to `results`). -/
def assembleResults {V : Type} [Inhabited V] (db : Database V) (query : String) :
    Except String (List (OrderedMap V)) :=
  match db query with
  | .error err => .error err
  | .ok rows =>
    match rows.columns with
    | .error err => .error err
    | .ok columnNames => scanLoop columnNames rows.fetched []

/-- The element loop of `json.Marshal` on a non-nil `[]*OrderedMap`: each
element is its `MarshalJSON` output after the compacting pass. -/
def marshalElems {V : Type} [Inhabited V] (lib : JsonLib V) :
    List (OrderedMap V) → Except String (List String)
  | [] => .ok []
  | om :: rest =>
    match om.MarshalJSON lib with
    | .error err => .error (lib.marshalerError err)
    | .ok b =>
      match lib.compact b with
      | .error err => .error (lib.marshalerError err)
      | .ok elem =>
        match marshalElems lib rest with
        | .error err => .error err
        | .ok elems => .ok (elem :: elems)

/-- The call `json.Marshal(results)`: `null` for the nil slice, else an array. -/
def marshalResults {V : Type} [Inhabited V] (lib : JsonLib V) :
    List (OrderedMap V) → Except String String
  | [] => .ok "null"
  | om :: rest =>
    match marshalElems lib (om :: rest) with
    | .error err => .error err
    | .ok elems => .ok (arrayText elems)

/-- The function `queryIndexes`. -/
def queryIndexes {V : Type} [Inhabited V] (lib : JsonLib V) (db : Database V) (query : String) :
    Except String String :=
  match assembleResults db query with
  | .error err => .error err
  | .ok results => marshalResults lib results

/-! ## The request handler -/

/-- The format string of the `fmt.Sprintf` call that builds the query. -/
def queryFormat : String :=
  "\n               SELECT\n               name, v_readable as version, description, arch, kind, tags, installed_size as \"installed size\", maintainer, license, source_repository as \"repository\", mandatory_dependencies as \"dependencies\"\n               FROM repository\n               WHERE name LIKE '%%%s%%'\n               ORDER BY index_timestamp DESC\n               LIMIT 150;"

/-- The statement `query := fmt.Sprintf(queryFormat, pkg_search)`. -/
def buildQuery (pkg_search : String) : String :=
  sprintf queryFormat [pkg_search]

/-- The text of the built query up to the search term. -/
def queryHead : String :=
  "\n               SELECT\n               name, v_readable as version, description, arch, kind, tags, installed_size as \"installed size\", maintainer, license, source_repository as \"repository\", mandatory_dependencies as \"dependencies\"\n               FROM repository\n               WHERE name LIKE '%"

/-- The text of the built query after the search term. -/
def queryTail : String :=
  "%'\n               ORDER BY index_timestamp DESC\n               LIMIT 150;"

/-- The text after the first occurrence of `c`. -/
def dropThrough (c : Char) : List Char → List Char
  | [] => []
  | d :: rest => if d == c then rest else dropThrough c rest

/-- What the goroutine of `queryEndpoint` does to the outside world before it
sends on `responseCh`, in program order. -/
inductive Effect
  | headerSet (key value : String)
  | writeHeader (statusCode : Nat)
  | storageQuery (query : String)
  deriving DecidableEq

/-- One run of the goroutine: its effects, then the bytes sent on `responseCh`. -/
structure PipelineRun where
  effects : List Effect
  response : String

/-- The error envelope: `json.Marshal` of the map with the single entry
`"error": msg`. -/
def errorEnvelope {V : Type} (lib : JsonLib V) (msg : String) : String :=
  "\x7b\"error\":" ++ lib.marshalString msg ++ "\x7d"

/-- The goroutine started by `queryEndpoint`; `pkg_search` is
`r.URL.Query().Get("package")`. -/
def pipeline {V : Type} [Inhabited V] (lib : JsonLib V) (DB : Database V)
    (pkg_search : String) : PipelineRun :=
  match validateSearchValue pkg_search with
  | some err =>
    { effects := [.headerSet "Content-Type" "application/json", .writeHeader 400],
      response := errorEnvelope lib err }
  | none =>
    let query := buildQuery pkg_search
    match queryIndexes lib DB query with
    | .error err =>
      { effects := [.headerSet "Content-Type" "application/json", .storageQuery query,
          .writeHeader 400],
        response := errorEnvelope lib err }
    | .ok jsonData =>
      { effects := [.headerSet "Content-Type" "application/json", .storageQuery query,
          .headerSet "Content-Length" (Nat.repr jsonData.utf8ByteSize), .writeHeader 200],
        response := jsonData }

/-- The `http.ResponseWriter` as the client observes it: the live header map,
the status line once written together with the header map as it was then, and
the body. -/
structure ResponseWriter where
  header : List (String × String)
  status : Option Nat
  sentHeader : List (String × String)
  body : String
  deriving DecidableEq

/-- The writer handed to the handler. -/
def ResponseWriter.fresh : ResponseWriter :=
  { header := [], status := none, sentHeader := [], body := "" }

/-- The call `w.Header().Set(key, value)`. -/
def ResponseWriter.headerSet (w : ResponseWriter) (key value : String) : ResponseWriter :=
  { w with header := mapAssign w.header key value }

/-- The call `w.WriteHeader(code)`: the first call fixes the status and the
headers that are sent, a later call is ignored. -/
def ResponseWriter.WriteHeader (w : ResponseWriter) (code : Nat) : ResponseWriter :=
  match w.status with
  | some _ => w
  | none => { w with status := some code, sentHeader := w.header }

/-- The call `w.Write(b)`: writes the status 200 first when none was written.
The server refuses a write that exceeds a declared `Content-Length`; that check
is left out, and statements about the body are made where the write fits. -/
def ResponseWriter.Write (w : ResponseWriter) (b : String) : ResponseWriter :=
  let w1 := w.WriteHeader 200
  { w1 with body := w1.body ++ b }

/-- One effect of the goroutine on the shared writer. -/
def applyEffect (w : ResponseWriter) : Effect → ResponseWriter
  | .headerSet key value => w.headerSet key value
  | .writeHeader code => w.WriteHeader code
  | .storageQuery _ => w

/-- The case the `select` statement takes.  The timer case can be taken when the
goroutine has performed any number `done` of its effects and its send has not
been received. -/
inductive Selected
  | response
  | timeout (done : Nat)
  deriving DecidableEq

/-- The handler `queryEndpoint`: the writer when the handler returns. -/
def queryEndpoint {V : Type} [Inhabited V] (lib : JsonLib V) (DB : Database V)
    (pkg_search : String) : Selected → ResponseWriter
  | .response =>
    let run := pipeline lib DB pkg_search
    (run.effects.foldl applyEffect ResponseWriter.fresh).Write run.response
  | .timeout done =>
    let run := pipeline lib DB pkg_search
    (((run.effects.take done).foldl applyEffect ResponseWriter.fresh).WriteHeader 408).Write
      "Timeout exceeded"

/-! ## Well-formed JSON texts (RFC 8259) -/

/-- Skips insignificant whitespace. -/
def skipWs : List Char → List Char
  | [] => []
  | c :: cs => if c == ' ' || c == '\t' || c == '\n' || c == '\r' then skipWs cs else c :: cs

def isHexDigit (c : Char) : Bool :=
  ('0' ≤ c && c ≤ '9') || ('a' ≤ c && c ≤ 'f') || ('A' ≤ c && c ≤ 'F')

def isDigit (c : Char) : Bool :=
  '0' ≤ c && c ≤ '9'

/-- The input after a string literal whose opening quote is already consumed. -/
def stringRest : List Char → Option (List Char)
  | [] => none
  | '"' :: cs => some cs
  | '\\' :: 'u' :: a :: b :: c :: d :: cs =>
    if isHexDigit a && isHexDigit b && isHexDigit c && isHexDigit d then stringRest cs else none
  | '\\' :: e :: cs =>
    if e == '"' || e == '\\' || e == '/' || e == 'b' || e == 'f' || e == 'n' || e == 'r' ||
      e == 't' then stringRest cs else none
  | c :: cs => if c.toNat < 32 || c == '\\' then none else stringRest cs

def dropDigits : List Char → List Char
  | [] => []
  | c :: cs => if isDigit c then dropDigits cs else c :: cs

/-- The input after an optional exponent part. -/
def expRest : List Char → Option (List Char)
  | e :: cs =>
    if e == 'e' || e == 'E' then
      let cs1 := match cs with
        | '+' :: r => r
        | '-' :: r => r
        | r => r
      match cs1 with
      | d :: r => if isDigit d then some (dropDigits r) else none
      | [] => none
    else some (e :: cs)
  | [] => some []

/-- The input after an optional fraction part and exponent part. -/
def fracRest : List Char → Option (List Char)
  | '.' :: d :: cs => if isDigit d then expRest (dropDigits cs) else none
  | '.' :: [] => none
  | cs => expRest cs

def intRest : List Char → Option (List Char)
  | '0' :: cs => fracRest cs
  | d :: cs => if isDigit d then fracRest (dropDigits cs) else none
  | [] => none

/-- The input after a number. -/
def numberRest : List Char → Option (List Char)
  | '-' :: cs => intRest cs
  | cs => intRest cs

mutual
/-- The input after one JSON value and the whitespace around it; the first
argument bounds the number of nested calls. -/
def valueRest : Nat → List Char → Option (List Char)
  | 0, _ => none
  | n + 1, cs =>
    match skipWs cs with
    | '{' :: r =>
      match skipWs r with
      | '}' :: r1 => some (skipWs r1)
      | r1 => membersRest n r1
    | '[' :: r =>
      match skipWs r with
      | ']' :: r1 => some (skipWs r1)
      | r1 => elementsRest n r1
    | '"' :: r => (stringRest r).map skipWs
    | 't' :: 'r' :: 'u' :: 'e' :: r => some (skipWs r)
    | 'f' :: 'a' :: 'l' :: 's' :: 'e' :: r => some (skipWs r)
    | 'n' :: 'u' :: 'l' :: 'l' :: r => some (skipWs r)
    | r => (numberRest r).map skipWs
/-- The input after the members of an object and its closing brace. -/
def membersRest : Nat → List Char → Option (List Char)
  | 0, _ => none
  | n + 1, cs =>
    match skipWs cs with
    | '"' :: r =>
      match stringRest r with
      | none => none
      | some r1 =>
        match skipWs r1 with
        | ':' :: r2 =>
          match valueRest n r2 with
          | some (',' :: r3) => membersRest n r3
          | some ('}' :: r3) => some (skipWs r3)
          | _ => none
        | _ => none
    | _ => none
/-- The input after the elements of an array and its closing bracket. -/
def elementsRest : Nat → List Char → Option (List Char)
  | 0, _ => none
  | n + 1, cs =>
    match valueRest n cs with
    | some (',' :: r) => elementsRest n r
    | some (']' :: r) => some (skipWs r)
    | _ => none
end

/-- A text is a well-formed JSON text when, for some bound on the nesting, it is
one JSON value and nothing else. -/
def IsJsonText (s : String) : Prop :=
  ∃ fuel, valueRest fuel s.data = some []

/-- Executable check of well-formedness; every nested call consumes a
character, so the length of the text bounds them. -/
def wellFormedJSON (s : String) : Bool :=
  valueRest (s.length + 1) s.data == some []

/-! ## `encoding/json` on scalar column values -/

/-- Column values a driver hands over: SQL `NULL` (the nil interface), integers
(`int64`) and text (`string`). -/
inductive Scalar
  | null
  | int (n : Int)
  | text (s : String)
  deriving DecidableEq

instance : Inhabited Scalar := ⟨Scalar.null⟩

/-- Lower-case hexadecimal digit. -/
def hexDigit (n : Nat) : Char :=
  "0123456789abcdef".data.getD n '0'

/-- The escape `\u00XX` of a character below 256. -/
def unicodeEscape (c : Char) : List Char :=
  ['\\', 'u', '0', '0', hexDigit (c.toNat / 16), hexDigit (c.toNat % 16)]

/-- How `json.Marshal` writes one character of a Go string: the quote and the
backslash are escaped, newline, carriage return and tab get their short form,
other control characters and `<`, `>`, `&` are written as a `u00XX` escape, and
the line separators U+2028 and U+2029 as the escapes `u2028` and `u2029`. -/
def escapeChar (c : Char) : List Char :=
  if c == '"' then ['\\', '"']
  else if c == '\\' then ['\\', '\\']
  else if c == '\n' then ['\\', 'n']
  else if c == '\r' then ['\\', 'r']
  else if c == '\t' then ['\\', 't']
  else if c.toNat < 32 || c == '<' || c == '>' || c == '&' then unicodeEscape c
  else if c.toNat == 8232 then ['\\', 'u', '2', '0', '2', '8']
  else if c.toNat == 8233 then ['\\', 'u', '2', '0', '2', '9']
  else [c]

/-- The JSON string literal `json.Marshal` emits for a Go string. -/
def jsonString (s : String) : String :=
  ⟨'"' :: (s.data.flatMap escapeChar ++ ['"'])⟩

/-- The rewriting done by the compacting pass of `json.Marshal`, with the flags
"inside a string" and "after a backslash": whitespace outside strings is
dropped, and `<`, `>`, `&`, U+2028 and U+2029 are escaped. -/
def compactAux : Bool → Bool → List Char → List Char
  | _, _, [] => []
  | inString, escaped, c :: cs =>
    let out :=
      if c == '<' || c == '>' || c == '&' then unicodeEscape c
      else if c.toNat == 8232 then ['\\', 'u', '2', '0', '2', '8']
      else if c.toNat == 8233 then ['\\', 'u', '2', '0', '2', '9']
      else [c]
    if inString then
      if escaped then out ++ compactAux true false cs
      else if c == '\\' then c :: compactAux true true cs
      else if c == '"' then c :: compactAux false false cs
      else out ++ compactAux true false cs
    else if c == ' ' || c == '\t' || c == '\n' || c == '\r' then compactAux false false cs
    else if c == '"' then c :: compactAux true false cs
    else out ++ compactAux false false cs

/-- The pass `json.Marshal` runs over the bytes a `MarshalJSON` method returns:
a text that is not valid JSON is an error (its message is abbreviated here), a
valid one is rewritten by `compactAux`. -/
def compactJSON (b : String) : Except String String :=
  if wellFormedJSON b then .ok ⟨compactAux false false b.data⟩
  else .error "invalid character in JSON text"

/-- The functions of `encoding/json` on scalar values: `null`, decimal integers
and escaped string literals for the values, and the compacting pass. -/
def scalarJson : JsonLib Scalar where
  marshalValue
    | .null => .ok "null"
    | .int n => .ok (toString n)
    | .text s => .ok (jsonString s)
  compact := compactJSON
  marshalerError := fun err => "json: error calling MarshalJSON for type *main.OrderedMap: " ++ err
  marshalString := jsonString

/-- The encoding of a scalar value as a total function. -/
def scalarText : Scalar → String
  | .null => "null"
  | .int n => toString n
  | .text s => jsonString s

/-! ## The storage, for the statement the program sends -/

/-- The text of the statement up to the opening quote of the `LIKE` pattern. -/
def selectHead : String :=
  "\n               SELECT\n               name, v_readable as version, description, arch, kind, tags, installed_size as \"installed size\", maintainer, license, source_repository as \"repository\", mandatory_dependencies as \"dependencies\"\n               FROM repository\n               WHERE name LIKE '"

/-- The column names of the statement's projection, aliases applied. -/
def selectColumns : List String :=
  ["name", "version", "description", "arch", "kind", "tags", "installed size", "maintainer",
    "license", "repository", "dependencies"]

/-- The input after the leading text `p`, when it starts with `p`. -/
def dropLeading : List Char → List Char → Option (List Char)
  | [], cs => some cs
  | _ :: _, [] => none
  | p :: ps, c :: cs => if p == c then dropLeading ps cs else none

/-- The whitespace-separated words of a text; `cur` is the word being read,
reversed. -/
def splitWords : List Char → List Char → List (List Char)
  | [], cur => if cur.isEmpty then [] else [cur.reverse]
  | c :: cs, cur =>
    if c == ' ' || c == '\t' || c == '\n' || c == '\r' then
      if cur.isEmpty then splitWords cs [] else cur.reverse :: splitWords cs []
    else splitWords cs (c :: cur)

/-- The value of a non-empty decimal numeral. -/
def parseDigits (cs : List Char) : Option Nat :=
  if !cs.isEmpty && cs.all isDigit then
    some (cs.foldl (fun n c => 10 * n + (c.toNat - 48)) 0)
  else none

/-- Modelled from the spec: the reading of the search statement of section 4.2
by the storage.  A text of the shape
`<select list> FROM repository WHERE name LIKE '<pattern>' ORDER BY index_timestamp DESC LIMIT <n>;`
yields the pattern (the text up to the next apostrophe) and the limit `n`; any
other text is not a statement of this family. -/
def parseStatement (query : String) : Option (String × Nat) :=
  match dropLeading selectHead.data query.data with
  | none => none
  | some rest =>
    match rest.dropWhile (fun c => c != Char.ofNat 39) with
    | [] => none
    | _ :: tail =>
      match splitWords tail [] with
      | [w1, w2, w3, w4, w5, w6] =>
        if w1 = "ORDER".data ∧ w2 = "BY".data ∧ w3 = "index_timestamp".data ∧
            w4 = "DESC".data ∧ w5 = "LIMIT".data then
          match w6.reverse with
          | ';' :: ds =>
            match parseDigits ds.reverse with
            | some n => some (⟨rest.takeWhile (fun c => c != Char.ofNat 39)⟩, n)
            | none => none
          | _ => none
        else none
      | _ => none

/-- Modelled from the spec: a storage honours the `LIMIT` clause when, for every
statement of the family with limit `n`, it yields at most `n` rows. -/
def HonoursLimit {V : Type} (db : Database V) : Prop :=
  ∀ (query pattern : String) (n : Nat) (rows : Rows V),
    parseStatement query = some (pattern, n) → db query = .ok rows → rows.fetched.length ≤ n

/-- Modelled from the spec: a row of the `repository` table of the storage, by
the package name, the index timestamp and the ten further projected columns
(version to dependencies). -/
structure Package where
  name : String
  index_timestamp : Nat
  others : List Scalar

/-- Modelled from the spec: the `LIKE` operator of the storage, the substring
match of section 4.2: `%` matches any sequence, `_` any one character, any other
character itself up to ASCII case. -/
def likeMatch : List Char → List Char → Bool
  | [], t => t.isEmpty
  | '%' :: p, t => t.tails.any (likeMatch p)
  | '_' :: p, t =>
    match t with
    | [] => false
    | _ :: t1 => likeMatch p t1
  | c :: p, t =>
    match t with
    | [] => false
    | d :: t1 => c.toLower == d.toLower && likeMatch p t1

/-- Modelled from the spec: the rows of the table whose name matches the
pattern. -/
def matchingRows (table : List Package) (pattern : String) : List Package :=
  table.filter (fun p => likeMatch pattern.data p.name.data)

/-- Modelled from the spec: the storage over a `repository` table.  A statement
of the family yields the rows whose name matches the pattern, most recently
indexed first, cut at the limit; any other text is a syntax error. -/
def repositoryStore (table : List Package) : Database Scalar := fun query =>
  match parseStatement query with
  | none => .error "syntax error"
  | some (pattern, n) =>
    .ok { columns := .ok selectColumns,
          fetched := (((matchingRows table pattern).insertionSort
            (fun a b => b.index_timestamp ≤ a.index_timestamp)).take n).map
              (fun p => .ok (Scalar.text p.name :: p.others)) }

/-- A `repository` table of 200 packages named `pkg`, indexed at times 0 to 199. -/
def table200 : List Package :=
  (List.range 200).map (fun i =>
    { name := "pkg", index_timestamp := i, others := List.replicate 10 Scalar.null })

/-- A storage whose result has the single column `a<b`. -/
def angleColumnStore : Database Scalar := fun query =>
  if query = "SELECT 1 AS \"a<b\";" then
    .ok { columns := .ok ["a<b"], fetched := [.ok [Scalar.int 1]] }
  else .error "syntax error"

/-- A storage whose result has the single column `a"b`. -/
def quoteColumnStore : Database Scalar := fun query =>
  if query = "SELECT 1 AS 'a\"b';" then
    .ok { columns := .ok ["a\"b"], fetched := [.ok [Scalar.int 1]] }
  else .error "syntax error"

/-- A storage that answers every query with one row of two columns. -/
def oneRowStore : Database Scalar := fun _ =>
  .ok { columns := .ok ["name", "version"], fetched := [.ok [Scalar.int 1, Scalar.int 2]] }

/-! ## Facts about the search term validation -/

theorem pkgNameClass_toNat_le (c : Char) (h : pkgNameClass c = true) : c.toNat ≤ 127 := by
  unfold pkgNameClass at h
  simp only [Bool.or_eq_true, Bool.and_eq_true, decide_eq_true_eq, beq_iff_eq] at h
  rcases h with (((h | h) | h) | h) | h
  · have h2 := h.2
    rw [Char.le_def, UInt32.le_def] at h2
    exact le_trans h2 (by decide)
  · have h2 := h.2
    rw [Char.le_def, UInt32.le_def] at h2
    exact le_trans h2 (by decide)
  · have h2 := h.2
    rw [Char.le_def, UInt32.le_def] at h2
    exact le_trans h2 (by decide)
  · subst h; decide
  · subst h; decide

theorem utf8Size_eq_one_of_toNat_le (c : Char) (h : c.toNat ≤ 127) : c.utf8Size = 1 := by
  unfold Char.utf8Size
  have h1 : c.val ≤ UInt32.ofNatCore 127 (by decide) := by
    rw [UInt32.le_def]; exact h
  exact if_pos h1

theorem not_pkgNameClass_of_lt_toNat (c : Char) (h : 127 < c.toNat) :
    pkgNameClass c = false := by
  cases hc : pkgNameClass c with
  | false => rfl
  | true => exact absurd (pkgNameClass_toNat_le c hc) (by omega)

theorem length_le_utf8ByteSize_go (cs : List Char) :
    cs.length ≤ String.utf8ByteSize.go cs := by
  induction cs with
  | nil => simp [String.utf8ByteSize.go]
  | cons c cs ih =>
    have := Char.utf8Size_pos c
    simp only [String.utf8ByteSize.go, List.length_cons]
    omega

theorem utf8ByteSize_go_eq_length (cs : List Char)
    (h : ∀ c ∈ cs, pkgNameClass c = true) : String.utf8ByteSize.go cs = cs.length := by
  induction cs with
  | nil => simp [String.utf8ByteSize.go]
  | cons c cs ih =>
    have h1 := utf8Size_eq_one_of_toNat_le c (pkgNameClass_toNat_le c (h c (by simp)))
    have h2 := ih (fun d hd => h d (by simp [hd]))
    simp only [String.utf8ByteSize.go, List.length_cons, h1, h2]

theorem matchPlusToEnd_iff (cls : Char → Bool) (cs : List Char) :
    matchPlusToEnd cls cs = true ↔ cs ≠ [] ∧ ∀ c ∈ cs, cls c = true := by
  induction cs with
  | nil => simp [matchPlusToEnd]
  | cons c rest ih =>
    cases rest with
    | nil => simp [matchPlusToEnd]
    | cons d rest =>
      rw [matchPlusToEnd, Bool.and_eq_true, ih]
      · simp
      · simp

theorem matchRepeatToEnd_zero_iff (cls : Char → Bool) (hi : Nat) (cs : List Char) :
    matchRepeatToEnd cls 0 hi cs = true ↔ cs.length ≤ hi ∧ ∀ c ∈ cs, cls c = true := by
  induction cs generalizing hi with
  | nil => simp [matchRepeatToEnd]
  | cons c rest ih =>
    cases hi with
    | zero => simp [matchRepeatToEnd]
    | succ hi =>
      rw [matchRepeatToEnd, Bool.and_eq_true, Nat.zero_sub, ih]
      simp
      tauto

theorem validateSearchValue_eq_none_iff (s : String) :
    validateSearchValue s = none ↔ s.length ≤ 50 ∧ ∀ c ∈ s.data, pkgNameClass c = true := by
  obtain ⟨cs⟩ := s
  have hge := length_le_utf8ByteSize_go cs
  unfold validateSearchValue pkgNameRegexMatchString
  simp only [String.utf8ByteSize, String.length]
  constructor
  · intro h
    split at h
    · cases h
    · rename_i h50
      split at h
      · split at h
        · cases h
        · rename_i hm
          have hm' := (matchPlusToEnd_iff _ _).1 (by simpa using hm)
          exact ⟨by omega, hm'.2⟩
      · rename_i h0
        have : cs = [] := List.length_eq_zero.1 (by omega)
        subst this
        simp
  · rintro ⟨hlen, hall⟩
    have heq := utf8ByteSize_go_eq_length cs hall
    rw [if_neg (by omega)]
    split
    · rename_i hpos
      have hne : cs ≠ [] := by
        intro h; subst h; simp [String.utf8ByteSize.go] at hpos
      have hm := (matchPlusToEnd_iff pkgNameClass cs).2 ⟨hne, hall⟩
      simp [hm]
    · rfl

/-! ## Facts about the ordered projection encoder -/

theorem sprintf_member (key json : String) :
    sprintf "\"%s\":%s" [key, json] = memberText key json := by
  apply String.ext
  simp [sprintf, sprintfAux, memberText, String.data_append]

theorem intercalate_go_append (a b sep : String) (l : List String) :
    String.intercalate.go (a ++ b) sep l = a ++ String.intercalate.go b sep l := by
  induction l generalizing b with
  | nil => simp [String.intercalate.go]
  | cons m ms ih =>
    simp only [String.intercalate.go]
    rw [String.append_assoc a b sep, String.append_assoc a (b ++ sep) m, ih]

theorem marshalLoop_succ {V : Type} [Inhabited V] (lib : JsonLib V) (enc : V → String)
    (data : List (String × V)) (ks : List String) (i : Nat) (buf : String)
    (henc : ∀ k ∈ ks, lib.marshalValue (mapIndex data k) = .ok (enc (mapIndex data k))) :
    OrderedMap.marshalLoop lib data (i + 1) ks buf =
      .ok (String.intercalate.go buf ","
        (ks.map fun k => memberText k (enc (mapIndex data k)))) := by
  induction ks generalizing i buf with
  | nil => simp [OrderedMap.marshalLoop, String.intercalate.go]
  | cons k rest ih =>
    have hk := henc k (by simp)
    simp only [OrderedMap.marshalLoop, hk, sprintf_member, List.map_cons,
      String.intercalate.go]
    rw [if_pos (Nat.succ_ne_zero i)]
    exact ih (i + 1) _ (fun k' hk' => henc k' (by simp [hk']))

theorem MarshalJSON_eq_objectText {V : Type} [Inhabited V] (lib : JsonLib V) (enc : V → String)
    (om : OrderedMap V)
    (henc : ∀ k ∈ om.keys, lib.marshalValue (mapIndex om.data k) = .ok (enc (mapIndex om.data k))) :
    om.MarshalJSON lib =
      .ok (objectText (om.keys.map fun k => memberText k (enc (mapIndex om.data k)))) := by
  unfold OrderedMap.MarshalJSON objectText
  cases hks : om.keys with
  | nil => simp [OrderedMap.marshalLoop, String.intercalate]
  | cons k rest =>
    rw [hks] at henc
    have hk := henc k (by simp)
    simp only [OrderedMap.marshalLoop, hk, sprintf_member, List.map_cons, String.intercalate]
    rw [if_neg (by simp)]
    rw [marshalLoop_succ lib enc om.data rest 0 _ (fun k' hk' => henc k' (by simp [hk']))]
    simp only [intercalate_go_append]

theorem buildRow_append {V : Type} (l : List (String × V)) (c : String × V) :
    buildRow (l ++ [c]) = (buildRow l).set c.1 c.2 := by
  simp [buildRow, List.foldl_append]

theorem buildRow_keys {V : Type} (l : List (String × V)) :
    (buildRow l).keys = l.map Prod.fst := by
  induction l using List.reverseRecOn with
  | nil => rfl
  | append_singleton l c ih => simp [buildRow_append, OrderedMap.set, ih]

theorem lookup_filter_ne {V : Type} (m : List (String × V)) (k k' : String) (h : k' ≠ k) :
    (m.filter fun p => p.1 != k).lookup k' = m.lookup k' := by
  induction m with
  | nil => rfl
  | cons p m ih =>
    obtain ⟨a, b⟩ := p
    by_cases hak : a = k
    · subst hak
      have h1 : (k' == a) = false := by simpa using h
      simp [List.filter_cons, List.lookup_cons, h1, ih]
    · have h1 : (a != k) = true := by simpa using hak
      simp only [List.filter_cons, h1, if_true, List.lookup_cons, ih]

theorem mapIndex_mapAssign {V : Type} [Inhabited V] (m : List (String × V)) (k k' : String)
    (v : V) : mapIndex (mapAssign m k v) k' = if k' = k then v else mapIndex m k' := by
  unfold mapIndex mapAssign
  by_cases h : k' = k
  · subst h; simp [List.lookup_cons]
  · have h1 : (k' == k) = false := by simpa using h
    simp [List.lookup_cons, h1, h, lookup_filter_ne m k k' h]

theorem lastValue_append {V : Type} [Inhabited V] (l : List (String × V)) (c : String × V)
    (k : String) : lastValue (l ++ [c]) k = if k = c.1 then c.2 else lastValue l k := by
  unfold lastValue
  obtain ⟨a, b⟩ := c
  by_cases h : k = a
  · subst h; simp [List.lookup_cons]
  · have h1 : (k == a) = false := by simpa using h
    simp [List.lookup_cons, h1, h]

theorem mapIndex_buildRow {V : Type} [Inhabited V] (l : List (String × V)) (k : String) :
    mapIndex (buildRow l).data k = lastValue l k := by
  induction l using List.reverseRecOn with
  | nil => rfl
  | append_singleton l c ih =>
    rw [buildRow_append, lastValue_append, ← ih]
    exact mapIndex_mapAssign _ _ _ _

theorem lastValue_mem {V : Type} [Inhabited V] (l : List (String × V)) (c : String × V)
    (hc : c ∈ l) : ∃ d ∈ l, d.1 = c.1 ∧ lastValue l c.1 = d.2 := by
  induction l using List.reverseRecOn with
  | nil => cases hc
  | append_singleton l e ih =>
    rw [lastValue_append]
    by_cases h : c.1 = e.1
    · exact ⟨e, by simp, h.symm, by simp [h]⟩
    · have hcl : c ∈ l := by
        rcases List.mem_append.1 hc with h1 | h1
        · exact h1
        · simp at h1; subst h1; exact absurd rfl h
      obtain ⟨d, hd, hd1, hd2⟩ := ih hcl
      exact ⟨d, by simp [hd], hd1, by simp [h, hd2]⟩

theorem lastValue_of_nodup {V : Type} [Inhabited V] (l : List (String × V))
    (hnd : (l.map Prod.fst).Nodup) (c : String × V) (hc : c ∈ l) :
    lastValue l c.1 = c.2 := by
  induction l using List.reverseRecOn with
  | nil => cases hc
  | append_singleton l e ih =>
    rw [lastValue_append]
    rw [List.map_append, List.nodup_append] at hnd
    obtain ⟨hl, _, hdisj⟩ := hnd
    rcases List.mem_append.1 hc with h1 | h1
    · have hne : c.1 ≠ e.1 := by
        intro heq
        exact hdisj (List.mem_map_of_mem Prod.fst h1) (by simp [heq])
      simp [hne, ih hl h1]
    · simp at h1; subst h1; simp

/-- The object emitted for a row built by `set` calls, when the value last
stored under each key is encodable: one member per call, each with the value
last stored under its key. -/
theorem MarshalJSON_buildRow {V : Type} [Inhabited V] (lib : JsonLib V) (enc : V → String)
    (calls : List (String × V))
    (hlast : ∀ c ∈ calls, lib.marshalValue (lastValue calls c.1) =
      .ok (enc (lastValue calls c.1))) :
    (buildRow calls).MarshalJSON lib =
      .ok (objectText (calls.map fun c => memberText c.1 (enc (lastValue calls c.1)))) := by
  rw [MarshalJSON_eq_objectText lib enc]
  · simp [buildRow_keys, mapIndex_buildRow, List.map_map, Function.comp_def]
  · intro k hk
    rw [buildRow_keys] at hk
    obtain ⟨c, hc, rfl⟩ := List.mem_map.1 hk
    rw [mapIndex_buildRow]
    exact hlast c hc

theorem lastValue_encodable {V : Type} [Inhabited V] (lib : JsonLib V) (enc : V → String)
    (calls : List (String × V))
    (henc : ∀ c ∈ calls, lib.marshalValue c.2 = .ok (enc c.2)) :
    ∀ c ∈ calls, lib.marshalValue (lastValue calls c.1) = .ok (enc (lastValue calls c.1)) := by
  intro c hc
  obtain ⟨d, hd, _, hd2⟩ := lastValue_mem calls c hc
  rw [hd2]; exact henc d hd

theorem valueRest_quote_key (fuel : Nat) (rest : List Char) :
    valueRest fuel ('\x7b' :: '"' :: '"' :: '"' :: rest) = none := by
  cases fuel with
  | zero => rfl
  | succ n =>
    cases n with
    | zero => rfl
    | succ n => rfl

/-- The recogniser accepts ordinary JSON texts and rejects broken ones. -/
theorem wellFormedJSON_examples :
    wellFormedJSON "\x7b\"name\":\"a b\",\"size\":-12.5e3,\"tags\":[null,true,\x7b\x7d]\x7d" = true ∧
    wellFormedJSON "[\x7b\"a\":1\x7d,\x7b\"a\":2\x7d]" = true ∧
    wellFormedJSON "null" = true ∧
    wellFormedJSON "\x7b\"a\":1,\x7d" = false ∧
    wellFormedJSON "\x7b\"a\\\":1\x7d" = false := by
  decide

theorem MarshalJSON_single {V : Type} [Inhabited V] (lib : JsonLib V) (k : String) (v : V)
    (b : String) (hb : lib.marshalValue v = .ok b) :
    (newOrderedMap.set k v).MarshalJSON lib = .ok ("\x7b\"" ++ k ++ "\":" ++ b ++ "\x7d") := by
  have hidx : mapIndex (newOrderedMap.set k v).data k = v := by
    simp [OrderedMap.set, newOrderedMap, mapIndex_mapAssign]
  rw [MarshalJSON_eq_objectText lib (fun _ => b)]
  · rfl
  · intro k' hk'
    have : k' = k := by simpa [OrderedMap.set, newOrderedMap] using hk'
    subst this
    rw [hidx]; exact hb

/-! ## Facts about the built query -/

set_option maxRecDepth 8000 in
theorem buildQuery_eq (pkg_search : String) :
    buildQuery pkg_search = queryHead ++ pkg_search ++ queryTail := by
  rfl

theorem pkgNameClass_excludes (c : Char) (h : pkgNameClass c = true) :
    c ≠ Char.ofNat 39 ∧ c ≠ '"' ∧ c ≠ '%' ∧ c ≠ ' ' ∧ c ≠ ';' ∧ c ≠ '\\' := by
  refine ⟨?_, ?_, ?_, ?_, ?_, ?_⟩ <;>
  · intro heq
    subst heq
    revert h
    decide

theorem dropThrough_append_of_not_mem (c : Char) (a b : List Char) (h : c ∉ a) :
    dropThrough c (a ++ b) = dropThrough c b := by
  induction a with
  | nil => rfl
  | cons d a ih =>
    have hd : (d == c) = false := by
      simp only [beq_eq_false_iff_ne, ne_eq]
      intro heq; exact h (by simp [heq])
    simp only [List.cons_append, dropThrough, hd]
    exact ih (fun hm => h (by simp [hm]))

set_option maxRecDepth 8000 in
theorem dropThrough_queryHead (rest : List Char) :
    dropThrough (Char.ofNat 39) (queryHead.data ++ rest) = '%' :: rest := by
  rfl

set_option maxRecDepth 8000 in
theorem count_apostrophe_queryHead : queryHead.data.count (Char.ofNat 39) = 1 := by
  decide

theorem count_apostrophe_queryTail : queryTail.data.count (Char.ofNat 39) = 1 := by
  decide

set_option maxRecDepth 8000 in
theorem queryHead_ends_with_like : ∃ pre : String, queryHead = pre ++ "LIKE '%" :=
  ⟨"\n               SELECT\n               name, v_readable as version, description, arch, kind, tags, installed_size as \"installed size\", maintainer, license, source_repository as \"repository\", mandatory_dependencies as \"dependencies\"\n               FROM repository\n               WHERE name ", by decide⟩

/-! ## Facts about `queryIndexes` -/

theorem scanLoop_ok {V : Type} [Inhabited V] (cols : List String) (vals : List (List V))
    (acc : List (OrderedMap V)) :
    scanLoop cols (vals.map .ok) acc = .ok (acc ++ vals.map (rowOf cols)) := by
  induction vals generalizing acc with
  | nil => simp [scanLoop]
  | cons v vals ih => simp [scanLoop, ih]

theorem scanLoop_length {V : Type} [Inhabited V] (cols : List String)
    (fetched : List (Except String (List V))) (acc results : List (OrderedMap V))
    (h : scanLoop cols fetched acc = .ok results) :
    results.length = acc.length + fetched.length := by
  induction fetched generalizing acc with
  | nil =>
    simp only [scanLoop, Except.ok.injEq] at h
    subst h; simp
  | cons r fetched ih =>
    cases r with
    | error err => simp [scanLoop] at h
    | ok v =>
      simp only [scanLoop] at h
      rw [ih _ h]
      simp
      omega

theorem assembleResults_length {V : Type} [Inhabited V] (db : Database V) (query : String)
    (results : List (OrderedMap V)) (h : assembleResults db query = .ok results) :
    ∃ rows, db query = .ok rows ∧ results.length = rows.fetched.length := by
  unfold assembleResults at h
  cases hq : db query with
  | error err => simp [hq] at h
  | ok rows =>
    rw [hq] at h
    cases hc : rows.columns with
    | error err => simp [hc] at h
    | ok cols =>
      simp only [hc] at h
      exact ⟨rows, rfl, by simpa using scanLoop_length cols rows.fetched [] results h⟩

theorem marshalElems_ok {V : Type} [Inhabited V] (lib : JsonLib V) (oms : List (OrderedMap V))
    (objs elems : List String)
    (hobj : List.Forall₂ (fun om o => OrderedMap.MarshalJSON lib om = .ok o) oms objs)
    (hcompact : List.Forall₂ (fun o e => lib.compact o = .ok e) objs elems) :
    marshalElems lib oms = .ok elems := by
  induction hobj generalizing elems with
  | nil =>
    cases hcompact
    rfl
  | @cons om o oms objs h _ ih =>
    cases hcompact with
    | @cons _ e _ elems h1 hrest =>
      have h2 := ih elems hrest
      simp [marshalElems, h, h1, h2]

/-! ## Facts about the storage -/

theorem dropLeading_append (p r : List Char) : dropLeading p (p ++ r) = some r := by
  induction p with
  | nil => cases r <;> rfl
  | cons c p ih => simp [dropLeading, ih]

theorem takeWhile_append_stop (q : Char → Bool) (l r : List Char) (c : Char)
    (hl : ∀ d ∈ l, q d = true) (hc : q c = false) :
    (l ++ c :: r).takeWhile q = l := by
  induction l with
  | nil => simp [List.takeWhile, hc]
  | cons d l ih =>
    have hd := hl d (by simp)
    rw [List.cons_append, List.takeWhile_cons, hd, ih (fun e he => hl e (by simp [he]))]
    rfl

theorem dropWhile_append_stop (q : Char → Bool) (l r : List Char) (c : Char)
    (hl : ∀ d ∈ l, q d = true) (hc : q c = false) :
    (l ++ c :: r).dropWhile q = c :: r := by
  induction l with
  | nil => simp [List.dropWhile, hc]
  | cons d l ih =>
    have hd := hl d (by simp)
    rw [List.cons_append, List.dropWhile_cons, hd]
    exact ih (fun e he => hl e (by simp [he]))

set_option maxRecDepth 8000 in
theorem buildQuery_data (s : String) :
    (buildQuery s).data = selectHead.data ++
      (('%' :: (s.data ++ ['%'])) ++ Char.ofNat 39 ::
        "\n               ORDER BY index_timestamp DESC\n               LIMIT 150;".data) := by
  have h1 : queryHead.data = selectHead.data ++ ['%'] := by rfl
  have h2 : queryTail.data = '%' :: Char.ofNat 39 ::
      "\n               ORDER BY index_timestamp DESC\n               LIMIT 150;".data := by rfl
  rw [buildQuery_eq, String.data_append, String.data_append, h1, h2]
  simp

theorem parseStatement_buildQuery (s : String) (hv : validateSearchValue s = none) :
    parseStatement (buildQuery s) = some ("%" ++ s ++ "%", 150) := by
  have hall := ((validateSearchValue_eq_none_iff s).1 hv).2
  have hq : ∀ d ∈ '%' :: (s.data ++ ['%']), (d != Char.ofNat 39) = true := by
    intro d hd
    simp only [List.mem_cons, List.mem_append, List.mem_singleton, List.not_mem_nil,
      or_false] at hd
    rcases hd with hd | hd | hd
    · subst hd; decide
    · have := (pkgNameClass_excludes d (hall d hd)).1
      simpa using this
    · subst hd; decide
  have hc : (Char.ofNat 39 != Char.ofNat 39) = false := by decide
  unfold parseStatement
  rw [buildQuery_data, dropLeading_append]
  simp only []
  rw [dropWhile_append_stop _ _ _ _ hq hc, takeWhile_append_stop _ _ _ _ hq hc]
  rfl

theorem repositoryStore_honoursLimit (table : List Package) :
    HonoursLimit (repositoryStore table) := by
  intro query pattern n rows hp hdb
  simp only [repositoryStore, hp, Except.ok.injEq] at hdb
  subst hdb
  simp only [List.length_map, List.length_take]
  exact Nat.min_le_left _ _

theorem assembleResults_repositoryStore (table : List Package) (s : String)
    (hv : validateSearchValue s = none) :
    assembleResults (repositoryStore table) (buildQuery s) =
      .ok ((((matchingRows table ("%" ++ s ++ "%")).insertionSort
        (fun a b => b.index_timestamp ≤ a.index_timestamp)).take 150).map
          (fun p => rowOf selectColumns (Scalar.text p.name :: p.others))) := by
  have h := scanLoop_ok selectColumns
    ((((matchingRows table ("%" ++ s ++ "%")).insertionSort
      (fun a b => b.index_timestamp ≤ a.index_timestamp)).take 150).map
        (fun p => Scalar.text p.name :: p.others)) []
  simp only [List.map_map, List.nil_append] at h
  simp only [assembleResults, repositoryStore, parseStatement_buildQuery s hv]
  exact h

theorem length_results_repositoryStore (table : List Package) (pattern : String) :
    ((((matchingRows table pattern).insertionSort
      (fun a b => b.index_timestamp ≤ a.index_timestamp)).take 150).map
        (fun p => rowOf selectColumns (Scalar.text p.name :: p.others))).length =
      min 150 (matchingRows table pattern).length := by
  simp [List.length_take, List.length_insertionSort]

theorem matchingRows_table200 : matchingRows table200 ("%" ++ "" ++ "%") = table200 := by
  unfold matchingRows
  rw [List.filter_eq_self]
  intro p hp
  simp only [table200, List.mem_map] at hp
  obtain ⟨i, _, rfl⟩ := hp
  rfl

/-! ## Facts about the handler -/

theorem pipeline_storageQuery {V : Type} [Inhabited V] (lib : JsonLib V) (DB : Database V)
    (pkg_search query : String)
    (h : Effect.storageQuery query ∈ (pipeline lib DB pkg_search).effects) :
    validateSearchValue pkg_search = none ∧ query = buildQuery pkg_search := by
  unfold pipeline at h
  cases hv : validateSearchValue pkg_search with
  | some msg => simp [hv] at h
  | none =>
    simp only [hv] at h
    refine ⟨rfl, ?_⟩
    cases hq : queryIndexes lib DB (buildQuery pkg_search) with
    | error err => simpa [hq] using h
    | ok b => simpa [hq] using h


theorem pipeline_of_success {V : Type} [Inhabited V] (lib : JsonLib V) (DB : Database V)
    (pkg_search b : String) (hv : validateSearchValue pkg_search = none)
    (hq : queryIndexes lib DB (buildQuery pkg_search) = .ok b) :
    pipeline lib DB pkg_search =
      { effects := [Effect.headerSet "Content-Type" "application/json",
          Effect.storageQuery (buildQuery pkg_search),
          Effect.headerSet "Content-Length" (Nat.repr b.utf8ByteSize), Effect.writeHeader 200],
        response := b } := by
  simp only [pipeline, hv, hq]

theorem storageQuery_mem_pipeline {V : Type} [Inhabited V] (lib : JsonLib V) (DB : Database V)
    (pkg_search : String) (hv : validateSearchValue pkg_search = none) :
    Effect.storageQuery (buildQuery pkg_search) ∈ (pipeline lib DB pkg_search).effects := by
  unfold pipeline
  simp only [hv]
  cases hq : queryIndexes lib DB (buildQuery pkg_search) with
  | error err => simp
  | ok b => simp

/-! ## The claims -/

/-- C1: `validateSearchValue` accepts a string exactly when it matches
`^[a-zA-Z0-9_-]{0,50}$`, that is when it has at most 50 characters, all of them
ASCII letters, digits, `-` or `_`; every other string (longer than 50, or with a
space, a quote, `%`, an apostrophe, a newline or a non-ASCII character) gets a
non-nil error. -/
theorem validateSearchValue_accepts_iff_pattern (s : String) :
    (validateSearchValue s = none ↔ specTermPattern s = true) ∧
    (validateSearchValue s = none ↔
      s.length ≤ 50 ∧ ∀ c ∈ s.data, pkgNameClass c = true) ∧
    (specTermPattern s = false → ∃ msg, validateSearchValue s = some msg) ∧
    ((50 < s.length ∨ ∃ c ∈ s.data, c = ' ' ∨ c = '"' ∨ c = '%' ∨ c = Char.ofNat 39 ∨
        c = '\n' ∨ 127 < c.toNat) → ∃ msg, validateSearchValue s = some msg) := by
  have hiff := validateSearchValue_eq_none_iff s
  have hspec : specTermPattern s = true ↔
      s.length ≤ 50 ∧ ∀ c ∈ s.data, pkgNameClass c = true := by
    unfold specTermPattern
    rw [matchRepeatToEnd_zero_iff]
    rfl
  have hsome : validateSearchValue s ≠ none → ∃ msg, validateSearchValue s = some msg := by
    intro h
    cases hv : validateSearchValue s with
    | none => exact absurd hv h
    | some msg => exact ⟨msg, rfl⟩
  refine ⟨hiff.trans hspec.symm, hiff, ?_, ?_⟩
  · intro hf
    apply hsome
    intro hn
    rw [hiff.trans hspec.symm] at hn
    rw [hn] at hf
    cases hf
  · intro h
    apply hsome
    intro hn
    obtain ⟨hlen, hall⟩ := hiff.1 hn
    rcases h with h | ⟨c, hc, h⟩
    · omega
    · have hcls := hall c hc
      rcases h with h | h | h | h | h | h
      · subst h; revert hcls; decide
      · subst h; revert hcls; decide
      · subst h; revert hcls; decide
      · subst h; revert hcls; decide
      · subst h; revert hcls; decide
      · rw [not_pkgNameClass_of_lt_toNat c h] at hcls
        cases hcls

/-- C1 at concrete terms: a 12-character term of the class is accepted, a term
with an apostrophe and spaces is rejected. -/
theorem validateSearchValue_accepts_iff_pattern_witness :
    validateSearchValue "lib-foo_2024" = none ∧
    ∃ msg, validateSearchValue "x' OR '1'='1" = some msg :=
  ⟨(validateSearchValue_accepts_iff_pattern "lib-foo_2024").1.2 (by decide),
    (validateSearchValue_accepts_iff_pattern "x' OR '1'='1").2.2.2
      (Or.inr ⟨' ', by decide, Or.inl rfl⟩)⟩

/-- C2: for a row built on a fresh `OrderedMap` by `set` calls with pairwise
distinct keys and encodable values, `MarshalJSON` succeeds with the bytes
`{"k1":enc(v1),...,"kn":enc(vn)}`: the keys appear in insertion order, each
with the value it was set with, and the empty row gives `{}`. -/
theorem MarshalJSON_insertion_order {V : Type} [Inhabited V] (lib : JsonLib V)
    (enc : V → String) (calls : List (String × V))
    (hkeys : (calls.map Prod.fst).Nodup)
    (henc : ∀ c ∈ calls, lib.marshalValue c.2 = .ok (enc c.2)) :
    (buildRow calls).MarshalJSON lib =
      .ok ("\x7b" ++ ",".intercalate (calls.map fun c => "\"" ++ c.1 ++ "\":" ++ enc c.2)
        ++ "\x7d") ∧
    (buildRow calls).keys = calls.map Prod.fst ∧
    (calls = [] → (buildRow calls).MarshalJSON lib = .ok "\x7b\x7d") := by
  have hmain := MarshalJSON_buildRow lib enc calls (lastValue_encodable lib enc calls henc)
  have hmap : (calls.map fun c => memberText c.1 (enc (lastValue calls c.1))) =
      calls.map fun c => "\"" ++ c.1 ++ "\":" ++ enc c.2 := by
    apply List.map_congr_left
    intro c hc
    rw [lastValue_of_nodup calls hkeys c hc, memberText]
  rw [hmap] at hmain
  refine ⟨hmain, buildRow_keys calls, ?_⟩
  intro hnil
  subst hnil
  rfl

/-- C2 at a concrete row whose keys are not in lexical order. -/
theorem MarshalJSON_insertion_order_witness :
    (buildRow [("zeta", Scalar.int 1), ("alpha", Scalar.null), ("mid", Scalar.int (-7))]).MarshalJSON
      scalarJson = .ok "\x7b\"zeta\":1,\"alpha\":null,\"mid\":-7\x7d" :=
  (MarshalJSON_insertion_order scalarJson scalarText
    [("zeta", Scalar.int 1), ("alpha", Scalar.null), ("mid", Scalar.int (-7))]
    (by decide) (by intro c hc; cases c with | mk k v => cases v <;> rfl)).1


/-- C9: `MarshalJSON` copies keys verbatim: the object for a map holding only
`(k, v)` is `{"k":enc(v)}` with the bytes of `k` unchanged; so for the key that
is a single double quote the output is not a well-formed JSON text, whatever the
value. -/
theorem MarshalJSON_key_verbatim {V : Type} [Inhabited V] (lib : JsonLib V) :
    (∀ (k : String) (v : V) (b : String), lib.marshalValue v = .ok b →
      (newOrderedMap.set k v).MarshalJSON lib =
        .ok ("\x7b\"" ++ k ++ "\":" ++ b ++ "\x7d")) ∧
    (∃ k : String, ∀ (v : V) (b : String), lib.marshalValue v = .ok b →
      ∃ out, (newOrderedMap.set k v).MarshalJSON lib = .ok out ∧
        ¬ IsJsonText out ∧ wellFormedJSON out = false) := by
  refine ⟨fun k v b hb => MarshalJSON_single lib k v b hb, "\"", ?_⟩
  intro v b hb
  refine ⟨_, MarshalJSON_single lib "\"" v b hb, ?_, ?_⟩
  · rintro ⟨fuel, hf⟩
    have hdata : ("\x7b\"" ++ "\"" ++ "\":" ++ b ++ "\x7d").data =
        '\x7b' :: '"' :: '"' :: '"' :: (':' :: (b.data ++ ['\x7d'])) := by
      simp [String.data_append]
    rw [hdata, valueRest_quote_key] at hf
    cases hf
  · have hdata : ("\x7b\"" ++ "\"" ++ "\":" ++ b ++ "\x7d").data =
        '\x7b' :: '"' :: '"' :: '"' :: (':' :: (b.data ++ ['\x7d'])) := by
      simp [String.data_append]
    unfold wellFormedJSON
    rw [hdata, valueRest_quote_key]
    rfl

/-- C9 at a concrete map: the key `a"b` set to 1 gives the text `{"a"b":1}`,
which the recogniser rejects. -/
theorem MarshalJSON_key_verbatim_witness :
    (newOrderedMap.set "a\"b" (Scalar.int 1)).MarshalJSON scalarJson =
      .ok "\x7b\"a\"b\":1\x7d" ∧
    wellFormedJSON "\x7b\"a\"b\":1\x7d" = false :=
  ⟨(MarshalJSON_key_verbatim scalarJson).1 "a\"b" (Scalar.int 1) "1" rfl, by decide⟩

/-- C10: `set` does not check key uniqueness.  After `set(k, v1)` and
`set(k, v2)` the key list is `[k, k]`, the map holds the single entry `(k, v2)`
and `MarshalJSON` emits `{"k":enc(v2),"k":enc(v2)}`.  In general the object has
one member per `set` call, each with the value of the last call for its key
(the values that are marshalled, the last one of each key, being encodable). -/
theorem set_repeated_key {V : Type} [Inhabited V] (lib : JsonLib V) (enc : V → String) :
    (∀ (k : String) (v1 v2 : V), lib.marshalValue v2 = .ok (enc v2) →
      ((newOrderedMap.set k v1).set k v2).keys = [k, k] ∧
      ((newOrderedMap.set k v1).set k v2).data = [(k, v2)] ∧
      ((newOrderedMap.set k v1).set k v2).MarshalJSON lib =
        .ok ("\x7b\"" ++ k ++ "\":" ++ enc v2 ++ ",\"" ++ k ++ "\":" ++ enc v2 ++ "\x7d")) ∧
    (∀ calls : List (String × V),
      (∀ c ∈ calls, lib.marshalValue (lastValue calls c.1) = .ok (enc (lastValue calls c.1))) →
      (buildRow calls).keys.length = calls.length ∧
      (calls.map fun c => "\"" ++ c.1 ++ "\":" ++ enc (lastValue calls c.1)).length =
        calls.length ∧
      (buildRow calls).MarshalJSON lib =
        .ok ("\x7b" ++ ",".intercalate
          (calls.map fun c => "\"" ++ c.1 ++ "\":" ++ enc (lastValue calls c.1)) ++ "\x7d")) := by
  constructor
  · intro k v1 v2 hv2
    have hkeys : ((newOrderedMap.set k v1).set k v2).keys = [k, k] := by
      simp [OrderedMap.set, newOrderedMap]
    have hdata : ((newOrderedMap.set k v1).set k v2).data = [(k, v2)] := by
      simp [OrderedMap.set, newOrderedMap, mapAssign]
    refine ⟨hkeys, hdata, ?_⟩
    rw [MarshalJSON_eq_objectText lib enc]
    · rw [hkeys, hdata]
      congr 1
      apply String.ext
      simp [mapIndex, objectText, memberText, String.intercalate, String.intercalate.go,
        String.data_append, List.lookup_cons]
    · intro k' hk'
      rw [hkeys] at hk'
      have : k' = k := by simpa using hk'
      subst this
      rw [hdata]
      simpa [mapIndex, List.lookup_cons] using hv2
  · intro calls henc
    refine ⟨by simp [buildRow_keys], by simp, ?_⟩
    exact MarshalJSON_buildRow lib enc calls henc

/-- C10 at concrete rows: a key set twice, and three calls on two keys. -/
theorem set_repeated_key_witness :
    ((newOrderedMap.set "k" (Scalar.int 1)).set "k" (Scalar.int 2)).MarshalJSON scalarJson =
      .ok "\x7b\"k\":2,\"k\":2\x7d" ∧
    (buildRow [("a", Scalar.int 1), ("b", Scalar.null), ("a", Scalar.int 3)]).MarshalJSON
      scalarJson = .ok "\x7b\"a\":3,\"b\":null,\"a\":3\x7d" :=
  ⟨((set_repeated_key scalarJson scalarText).1 "k" (Scalar.int 1) (Scalar.int 2) rfl).2.2,
    ((set_repeated_key scalarJson scalarText).2
      [("a", Scalar.int 1), ("b", Scalar.null), ("a", Scalar.int 3)]
      (lastValue_encodable scalarJson scalarText _
        (by intro c hc; cases c with | mk k v => cases v <;> rfl))).2.2⟩


/-- C8, as stated, fails on a column name with `<`: `MarshalJSON` gives the
object `{"a<b":1}` for the row, but `json.Marshal` passes that object through
its compacting pass, so the array element has `<` written as the escape `u003c`
and the output is not `[` + the `MarshalJSON` object + `]`; on a column name
with a double quote
the pass rejects the object and `queryIndexes` returns an error. -/
theorem queryIndexes_array_not_verbatim :
    (rowOf ["a<b"] [Scalar.int 1]).MarshalJSON scalarJson = .ok "\x7b\"a<b\":1\x7d" ∧
    queryIndexes scalarJson angleColumnStore "SELECT 1 AS \"a<b\";" =
      .ok "[\x7b\"a\\u003cb\":1\x7d]" ∧
    queryIndexes scalarJson angleColumnStore "SELECT 1 AS \"a<b\";" ≠
      .ok ("[" ++ "\x7b\"a<b\":1\x7d" ++ "]") ∧
    (rowOf ["a\"b"] [Scalar.int 1]).MarshalJSON scalarJson = .ok "\x7b\"a\"b\":1\x7d" ∧
    (∃ err, queryIndexes scalarJson quoteColumnStore "SELECT 1 AS 'a\"b';" = .error err) := by
  refine ⟨rfl, rfl, ?_, rfl, ⟨_, rfl⟩⟩
  intro h
  have h2 : queryIndexes scalarJson angleColumnStore "SELECT 1 AS \"a<b\";" =
      .ok "[\x7b\"a\\u003cb\":1\x7d]" := rfl
  rw [h2] at h
  injection h with h3
  revert h3
  decide

/-- C8, amended: when the query yields zero rows `queryIndexes` succeeds with
the bytes `null`; when it yields one or more rows, each with a `MarshalJSON`
object that the compacting pass of `json.Marshal` accepts, it succeeds with the
array `[e1,...,en]` where `ei` is the compacted object of the i-th row, in the
order the rows were fetched; the elements are the `MarshalJSON` objects
themselves whenever the pass returns them unchanged. -/
theorem queryIndexes_null_or_compacted_array {V : Type} [Inhabited V] (lib : JsonLib V)
    (db : Database V) (query : String) (cols : List String) (vals : List (List V))
    (hq : db query = .ok { columns := .ok cols, fetched := vals.map .ok }) :
    (vals = [] → queryIndexes lib db query = .ok "null") ∧
    (∀ objs elems : List String, vals ≠ [] →
      List.Forall₂ (fun v o => (rowOf cols v).MarshalJSON lib = .ok o) vals objs →
      List.Forall₂ (fun o e => lib.compact o = .ok e) objs elems →
      queryIndexes lib db query = .ok ("[" ++ ",".intercalate elems ++ "]")) ∧
    (∀ objs : List String, vals ≠ [] →
      List.Forall₂ (fun v o => (rowOf cols v).MarshalJSON lib = .ok o) vals objs →
      (∀ o ∈ objs, lib.compact o = .ok o) →
      queryIndexes lib db query = .ok ("[" ++ ",".intercalate objs ++ "]")) := by
  have hres : assembleResults db query = .ok (vals.map (rowOf cols)) := by
    unfold assembleResults
    rw [hq]
    simpa using scanLoop_ok cols vals []
  have hmain : ∀ objs elems : List String, vals ≠ [] →
      List.Forall₂ (fun v o => (rowOf cols v).MarshalJSON lib = .ok o) vals objs →
      List.Forall₂ (fun o e => lib.compact o = .ok e) objs elems →
      queryIndexes lib db query = .ok ("[" ++ ",".intercalate elems ++ "]") := by
    intro objs elems hne hobj hcompact
    unfold queryIndexes
    rw [hres]
    have helems : marshalElems lib (vals.map (rowOf cols)) = .ok elems := by
      apply marshalElems_ok lib _ objs elems _ hcompact
      rw [List.forall₂_map_left_iff]
      exact hobj
    cases vals with
    | nil => exact absurd rfl hne
    | cons v vals =>
      simp only [List.map_cons, marshalResults] at helems ⊢
      rw [helems]
      rfl
  refine ⟨?_, hmain, ?_⟩
  · intro hnil
    subst hnil
    unfold queryIndexes
    rw [hres]
    rfl
  · intro objs hne hobj hsame
    apply hmain objs objs hne hobj
    rw [List.forall₂_same]
    exact hsame

/-- C8, amended, at concrete results: no row gives `null`; two rows give a
two-element array in fetch order, whose elements are the `MarshalJSON` objects
as the compacting pass returns them (here unchanged). -/
theorem queryIndexes_null_or_compacted_array_witness :
    queryIndexes scalarJson
      (fun _ => .ok { columns := .ok ["name", "size"], fetched := [] }) "q" = .ok "null" ∧
    queryIndexes scalarJson
      (fun _ => .ok { columns := .ok ["name", "size"],
                      fetched := [.ok [Scalar.text "x<y", Scalar.null],
                        .ok [Scalar.text "foo-bar", Scalar.int 5]] })
      "q" = .ok "[\x7b\"name\":\"x\\u003cy\",\"size\":null\x7d,\x7b\"name\":\"foo-bar\",\"size\":5\x7d]" :=
  ⟨(queryIndexes_null_or_compacted_array scalarJson _ "q" ["name", "size"] [] rfl).1 rfl,
    (queryIndexes_null_or_compacted_array scalarJson _ "q" ["name", "size"]
      [[Scalar.text "x<y", Scalar.null], [Scalar.text "foo-bar", Scalar.int 5]] rfl).2.1
      ["\x7b\"name\":\"x\\u003cy\",\"size\":null\x7d", "\x7b\"name\":\"foo-bar\",\"size\":5\x7d"]
      ["\x7b\"name\":\"x\\u003cy\",\"size\":null\x7d", "\x7b\"name\":\"foo-bar\",\"size\":5\x7d"]
      (by simp)
      (List.Forall₂.cons rfl (List.Forall₂.cons rfl List.Forall₂.nil))
      (List.Forall₂.cons rfl (List.Forall₂.cons rfl List.Forall₂.nil))⟩

/-- C6: the Result Set that `queryIndexes` assembles for a request never has
more than 150 rows.  The only query the handler passes on is the text built for
an accepted term; in that text the term stays inside the `LIKE` pattern and the
clause `LIMIT 150` follows, so on every storage that honours the clause the
Result Set, which has one Ordered Row per fetched row, has at most 150 rows; on
the storage over a `repository` table it has exactly the smaller of 150 and the
number of matching rows. -/
theorem resultSet_at_most_150 {V : Type} [Inhabited V] (lib : JsonLib V) (db : Database V)
    (pkg_search query : String) (results : List (OrderedMap V))
    (hdb : HonoursLimit db)
    (hissued : Effect.storageQuery query ∈ (pipeline lib db pkg_search).effects)
    (hres : assembleResults db query = .ok results) :
    results.length ≤ 150 ∧
    query = buildQuery pkg_search ∧
    parseStatement query = some ("%" ++ pkg_search ++ "%", 150) ∧
    (∃ rows, db query = .ok rows ∧ results.length = rows.fetched.length) ∧
    (∀ table : List Package, HonoursLimit (repositoryStore table) ∧
      ∃ found, assembleResults (repositoryStore table) query = .ok found ∧
        found.length = min 150 (matchingRows table ("%" ++ pkg_search ++ "%")).length) := by
  obtain ⟨hv, hquery⟩ := pipeline_storageQuery lib db pkg_search query hissued
  subst hquery
  have hparse := parseStatement_buildQuery pkg_search hv
  obtain ⟨rows, hrows, hlen⟩ := assembleResults_length db _ results hres
  refine ⟨?_, rfl, hparse, ⟨rows, hrows, hlen⟩, ?_⟩
  · rw [hlen]
    exact hdb _ _ _ rows hparse hrows
  · intro table
    exact ⟨repositoryStore_honoursLimit table, _,
      assembleResults_repositoryStore table pkg_search hv,
      length_results_repositoryStore table _⟩

/-- C6 at the request `package=` (no filter) on a table of 200 matching rows:
the Result Set has exactly 150 rows. -/
theorem resultSet_at_most_150_witness :
    validateSearchValue "" = none ∧
    (matchingRows table200 ("%" ++ "" ++ "%")).length = 200 ∧
    ∃ results, assembleResults (repositoryStore table200) (buildQuery "") = .ok results ∧
      results.length = 150 := by
  have hv : validateSearchValue "" = none := by decide
  have h200 : (matchingRows table200 ("%" ++ "" ++ "%")).length = 200 := by
    rw [matchingRows_table200]
    simp [table200]
  have hres := assembleResults_repositoryStore table200 "" hv
  obtain ⟨found, hfound, hlen⟩ :=
    ((resultSet_at_most_150 scalarJson (repositoryStore table200) "" (buildQuery "") _
      (repositoryStore_honoursLimit table200)
      (storageQuery_mem_pipeline scalarJson (repositoryStore table200) "" hv)
      hres).2.2.2.2 table200).2
  rw [h200] at hlen
  exact ⟨hv, h200, found, hfound, hlen⟩

/-- C3: for a term accepted by `validateSearchValue` the built query is the
template with the term placed verbatim between `LIKE '%` and `%'`; the term has
no apostrophe, double quote, `%`, space, semicolon or backslash, so the query
has exactly the two apostrophes of the template and the text after the closing
one is the fixed tail `ORDER BY index_timestamp DESC LIMIT 150;` (in the layout
of the template). -/
theorem buildQuery_term_confined (s : String) (h : validateSearchValue s = none) :
    buildQuery s = queryHead ++ s ++ queryTail ∧
    (∃ pre : String, queryHead = pre ++ "LIKE '%") ∧
    queryTail = "%'" ++ "\n               ORDER BY index_timestamp DESC\n               LIMIT 150;" ∧
    (∀ c ∈ s.data, c ≠ Char.ofNat 39 ∧ c ≠ '"' ∧ c ≠ '%' ∧ c ≠ ' ' ∧ c ≠ ';' ∧ c ≠ '\\') ∧
    (buildQuery s).data.count (Char.ofNat 39) = 2 ∧
    dropThrough (Char.ofNat 39) (dropThrough (Char.ofNat 39) (buildQuery s).data) =
      "\n               ORDER BY index_timestamp DESC\n               LIMIT 150;".data := by
  have hall := ((validateSearchValue_eq_none_iff s).1 h).2
  have hex : ∀ c ∈ s.data, c ≠ Char.ofNat 39 ∧ c ≠ '"' ∧ c ≠ '%' ∧ c ≠ ' ' ∧ c ≠ ';' ∧
      c ≠ '\\' := fun c hc => pkgNameClass_excludes c (hall c hc)
  have hnot : Char.ofNat 39 ∉ s.data := fun hm => (hex _ hm).1 rfl
  have hdata : (buildQuery s).data = queryHead.data ++ (s.data ++ queryTail.data) := by
    rw [buildQuery_eq, String.data_append, String.data_append, List.append_assoc]
  refine ⟨buildQuery_eq s, queryHead_ends_with_like, by decide, hex, ?_, ?_⟩
  · rw [hdata, List.count_append, List.count_append, count_apostrophe_queryHead,
      count_apostrophe_queryTail, List.count_eq_zero_of_not_mem hnot]
  · rw [hdata, dropThrough_queryHead]
    have h1 : dropThrough (Char.ofNat 39) ('%' :: (s.data ++ queryTail.data)) =
        dropThrough (Char.ofNat 39) (s.data ++ queryTail.data) := rfl
    rw [h1, dropThrough_append_of_not_mem _ _ _ hnot]
    rfl

/-- C3 at the term `foo-bar`. -/
theorem buildQuery_term_confined_witness :
    validateSearchValue "foo-bar" = none ∧
    (buildQuery "foo-bar").data.count (Char.ofNat 39) = 2 ∧
    dropThrough (Char.ofNat 39) (dropThrough (Char.ofNat 39) (buildQuery "foo-bar").data) =
      "\n               ORDER BY index_timestamp DESC\n               LIMIT 150;".data :=
  ⟨by decide, (buildQuery_term_confined "foo-bar" (by decide)).2.2.2.2.1,
    (buildQuery_term_confined "foo-bar" (by decide)).2.2.2.2.2⟩

/-- C4: when `validateSearchValue` rejects the `package` parameter, the pipeline
sets the content type and the status 400 and nothing else: it issues no storage
query, its run does not depend on the storage, and the body it hands over is the
JSON object `{"error": <the validation error message>}`. -/
theorem rejected_request_skips_storage {V : Type} [Inhabited V] (lib : JsonLib V)
    (DB : Database V) (pkg_search msg : String)
    (h : validateSearchValue pkg_search = some msg) :
    (pipeline lib DB pkg_search).effects =
      [Effect.headerSet "Content-Type" "application/json", Effect.writeHeader 400] ∧
    (∀ query, Effect.storageQuery query ∉ (pipeline lib DB pkg_search).effects) ∧
    (∀ DB2 : Database V, pipeline lib DB2 pkg_search = pipeline lib DB pkg_search) ∧
    (pipeline lib DB pkg_search).response = "\x7b\"error\":" ++ lib.marshalString msg ++ "\x7d" ∧
    (queryEndpoint lib DB pkg_search Selected.response).status = some 400 ∧
    (queryEndpoint lib DB pkg_search Selected.response).body =
      "\x7b\"error\":" ++ lib.marshalString msg ++ "\x7d" := by
  have hp : ∀ DB2 : Database V, pipeline lib DB2 pkg_search =
      { effects := [Effect.headerSet "Content-Type" "application/json", Effect.writeHeader 400],
        response := errorEnvelope lib msg } := by
    intro DB2
    simp only [pipeline, h]
  refine ⟨by rw [hp], ?_, ?_, by rw [hp]; rfl, ?_, ?_⟩
  · intro query
    rw [hp]
    simp
  · intro DB2
    rw [hp, hp]
  · simp only [queryEndpoint, hp]
    rfl
  · simp only [queryEndpoint, hp]
    simp [applyEffect, ResponseWriter.Write, ResponseWriter.WriteHeader, ResponseWriter.headerSet,
      ResponseWriter.fresh, errorEnvelope]

/-- C4 at the request `package=' OR '1'='1`. -/
theorem rejected_request_skips_storage_witness :
    queryEndpoint scalarJson oneRowStore "' OR '1'='1" Selected.response =
      { header := [("Content-Type", "application/json")],
        status := some 400,
        sentHeader := [("Content-Type", "application/json")],
        body := "\x7b\"error\":\"Package name can only contain English alphabets, numbers, '-' and '_' characters.\"\x7d" } ∧
    (∀ query, Effect.storageQuery query ∉ (pipeline scalarJson oneRowStore "' OR '1'='1").effects) :=
  ⟨by decide,
    (rejected_request_skips_storage scalarJson oneRowStore "' OR '1'='1"
      "Package name can only contain English alphabets, numbers, '-' and '_' characters."
      (by decide)).2.1⟩


/-- C5: for a valid term whose query and serialization succeed with bytes `b`,
when the pipeline's result is the case selected, the response has
`Content-Type: application/json`, `Content-Length` equal to the decimal length
of `b` in bytes, status 200 and exactly `b` as body. -/
theorem successful_request_response {V : Type} [Inhabited V] (lib : JsonLib V)
    (DB : Database V) (pkg_search b : String)
    (hv : validateSearchValue pkg_search = none)
    (hq : queryIndexes lib DB (buildQuery pkg_search) = .ok b) :
    (queryEndpoint lib DB pkg_search Selected.response).sentHeader.lookup "Content-Type" =
      some "application/json" ∧
    (queryEndpoint lib DB pkg_search Selected.response).sentHeader.lookup "Content-Length" =
      some (Nat.repr b.utf8ByteSize) ∧
    (queryEndpoint lib DB pkg_search Selected.response).status = some 200 ∧
    (queryEndpoint lib DB pkg_search Selected.response).body = b := by
  have hw : queryEndpoint lib DB pkg_search Selected.response =
      { header := [("Content-Length", Nat.repr b.utf8ByteSize),
          ("Content-Type", "application/json")],
        status := some 200,
        sentHeader := [("Content-Length", Nat.repr b.utf8ByteSize),
          ("Content-Type", "application/json")],
        body := b } := by
    simp only [queryEndpoint, pipeline_of_success lib DB pkg_search b hv hq]
    simp [applyEffect, ResponseWriter.Write, ResponseWriter.WriteHeader,
      ResponseWriter.headerSet, ResponseWriter.fresh, mapAssign]
  rw [hw]
  refine ⟨?_, ?_, rfl, rfl⟩
  · simp [List.lookup_cons]
  · simp [List.lookup_cons]

/-- C5 at the request `package=foo` on a storage with one matching row. -/
theorem successful_request_response_witness :
    queryEndpoint scalarJson oneRowStore "foo" Selected.response =
      { header := [("Content-Length", "24"), ("Content-Type", "application/json")],
        status := some 200,
        sentHeader := [("Content-Length", "24"), ("Content-Type", "application/json")],
        body := "[\x7b\"name\":1,\"version\":2\x7d]" } ∧
    (queryEndpoint scalarJson oneRowStore "foo" Selected.response).sentHeader.lookup
      "Content-Length" = some (Nat.repr ("[\x7b\"name\":1,\"version\":2\x7d]").utf8ByteSize) :=
  ⟨by decide,
    (successful_request_response scalarJson oneRowStore "foo" "[\x7b\"name\":1,\"version\":2\x7d]"
      (by decide) rfl).2.1⟩

/-- C7, the code at the failing schedules: the goroutine writes the headers and
the status to the shared writer before it sends on the channel.  When the timer
case is selected after the goroutine's `WriteHeader(200)`, the handler's
`WriteHeader(408)` is ignored: the client gets status 200 and the pipeline's
`Content-Length`, with the body `Timeout exceeded` when it fits that length.
Selected one step earlier the status is 408 with the pipeline's `Content-Length`
and `Content-Type`; selected while the query runs the status is 408 with the
pipeline's `Content-Type: application/json`; only when the goroutine has not run
at all is the response the bare 408 notice. -/
theorem timeout_observes_pipeline_writes {V : Type} [Inhabited V] (lib : JsonLib V)
    (DB : Database V) (pkg_search b : String)
    (hv : validateSearchValue pkg_search = none)
    (hq : queryIndexes lib DB (buildQuery pkg_search) = .ok b) :
    (queryEndpoint lib DB pkg_search (Selected.timeout 4)).status = some 200 ∧
    (queryEndpoint lib DB pkg_search (Selected.timeout 4)).sentHeader =
      [("Content-Length", Nat.repr b.utf8ByteSize), ("Content-Type", "application/json")] ∧
    (16 ≤ b.utf8ByteSize →
      (queryEndpoint lib DB pkg_search (Selected.timeout 4)).body = "Timeout exceeded") ∧
    (queryEndpoint lib DB pkg_search (Selected.timeout 3)).status = some 408 ∧
    (queryEndpoint lib DB pkg_search (Selected.timeout 3)).sentHeader =
      [("Content-Length", Nat.repr b.utf8ByteSize), ("Content-Type", "application/json")] ∧
    (queryEndpoint lib DB pkg_search (Selected.timeout 2)).status = some 408 ∧
    (queryEndpoint lib DB pkg_search (Selected.timeout 2)).sentHeader =
      [("Content-Type", "application/json")] ∧
    queryEndpoint lib DB pkg_search (Selected.timeout 0) =
      { header := [], status := some 408, sentHeader := [], body := "Timeout exceeded" } := by
  have h4 : queryEndpoint lib DB pkg_search (Selected.timeout 4) =
      { header := [("Content-Length", Nat.repr b.utf8ByteSize),
          ("Content-Type", "application/json")],
        status := some 200,
        sentHeader := [("Content-Length", Nat.repr b.utf8ByteSize),
          ("Content-Type", "application/json")],
        body := "Timeout exceeded" } := by
    simp only [queryEndpoint, pipeline_of_success lib DB pkg_search b hv hq]
    simp [applyEffect, ResponseWriter.Write, ResponseWriter.WriteHeader,
      ResponseWriter.headerSet, ResponseWriter.fresh, mapAssign]
  have h3 : queryEndpoint lib DB pkg_search (Selected.timeout 3) =
      { header := [("Content-Length", Nat.repr b.utf8ByteSize),
          ("Content-Type", "application/json")],
        status := some 408,
        sentHeader := [("Content-Length", Nat.repr b.utf8ByteSize),
          ("Content-Type", "application/json")],
        body := "Timeout exceeded" } := by
    simp only [queryEndpoint, pipeline_of_success lib DB pkg_search b hv hq]
    simp [applyEffect, ResponseWriter.Write, ResponseWriter.WriteHeader,
      ResponseWriter.headerSet, ResponseWriter.fresh, mapAssign]
  have h2 : queryEndpoint lib DB pkg_search (Selected.timeout 2) =
      { header := [("Content-Type", "application/json")],
        status := some 408,
        sentHeader := [("Content-Type", "application/json")],
        body := "Timeout exceeded" } := by
    simp only [queryEndpoint, pipeline_of_success lib DB pkg_search b hv hq]
    simp [applyEffect, ResponseWriter.Write, ResponseWriter.WriteHeader,
      ResponseWriter.headerSet, ResponseWriter.fresh, mapAssign]
  have h0 : queryEndpoint lib DB pkg_search (Selected.timeout 0) =
      { header := [], status := some 408, sentHeader := [], body := "Timeout exceeded" } := by
    simp only [queryEndpoint, pipeline_of_success lib DB pkg_search b hv hq]
    simp [ResponseWriter.Write, ResponseWriter.WriteHeader, ResponseWriter.fresh]
  rw [h4, h3, h2, h0]
  exact ⟨rfl, rfl, fun _ => rfl, rfl, rfl, rfl, rfl, rfl⟩

/-- C7 at the request `package=foo` on a storage with one matching row: the
timer case selected after the pipeline's four effects yields status 200, not
408, with the pipeline's headers and the timeout notice as body. -/
theorem timeout_observes_pipeline_writes_witness :
    (queryEndpoint scalarJson oneRowStore "foo" (Selected.timeout 4)).status = some 200 ∧
    (queryEndpoint scalarJson oneRowStore "foo" (Selected.timeout 4)).sentHeader =
      [("Content-Length", "24"), ("Content-Type", "application/json")] ∧
    (queryEndpoint scalarJson oneRowStore "foo" (Selected.timeout 4)).body =
      "Timeout exceeded" :=
  ⟨(timeout_observes_pipeline_writes scalarJson oneRowStore "foo"
      "[\x7b\"name\":1,\"version\":2\x7d]" (by decide) rfl).1,
    (timeout_observes_pipeline_writes scalarJson oneRowStore "foo"
      "[\x7b\"name\":1,\"version\":2\x7d]" (by decide) rfl).2.1,
    (timeout_observes_pipeline_writes scalarJson oneRowStore "foo"
      "[\x7b\"name\":1,\"version\":2\x7d]" (by decide) rfl).2.2.1 (by decide)⟩

end PackageSearch
